import Mathlib

/-!
Shallow embedding of the DeltaV OPC tag import scripts
(src/import_deltav_opc_tags.py and src/import_deltav_opc_tags_ui.py).

The remote OPC server is modelled as a function from a node id and an
attempt index to the outcome of a system.opc.browseServer call: none
models both a raised exception and a Python None result (the two are
handled identically at every call site of the scripts), some items a
successful listing.  The attempt index for a node is the number of
browse calls already issued for that node id in the current job, so the
model can express environments whose calls fail some number of times
and then succeed; the scripts themselves issue each call exactly once.

The Ignition destination store (system.tag) is modelled as the set of
tag paths that exist; system.tag.configure is modelled as always
succeeding and making its target path exist.  Every destination call is
recorded in a call log so that claims about which calls a run issues
can be stated.
-/

/-- One entry returned by system.opc.browseServer: a display name and a
node id (item.getDisplayName() / item.getNodeId()). -/
structure Item where
  displayName : String
  nodeId : String
deriving DecidableEq

/-- One entry of the found_tags list built by browse_opc_iterative:
the dict {'node_id': ..., 'display_name': ..., 'relative_path': ...}. -/
structure TagInfo where
  node_id : String
  display_name : String
  relative_path : String
deriving DecidableEq

/-- The remote OPC server: node id and attempt index to browse outcome.
none models a raised exception or a None result. -/
abbrev Client : Type := String → Nat → Option (List Item)

/-- The mutable state of browse_opc_iterative: the work queue of
(node_id, relative_path) pairs, the visited set, the found_tags list,
the log of every browseServer call issued (in order), the sub-log of
work-item (dequeue) browse calls, and the two counters. -/
structure BState where
  queue : List (String × String)
  visited : List String
  found : List TagInfo
  log : List String
  mainLog : List String
  itemsTotal : Nat
  iterations : Nat
deriving DecidableEq

/-- The for-loop over the items of one browsed node
(src/import_deltav_opc_tags.py lines 130-183): skip the #Properties
pseudo-folder, record matching names as found tags without probing,
otherwise probe the item with a speculative browse and enqueue it as a
folder when the probe returns a nonempty listing and the id is not yet
visited. -/
def processItems (c : Client) (sl : Option (List String)) (rel : String) :
    List Item → BState → BState
  | [], st => st
  | item :: rest, st =>
    if item.displayName = "#Properties" then
      processItems c sl rel rest st
    else
      let rel2 := if rel ≠ "" then rel ++ "/" ++ item.displayName else item.displayName
      let matched : Bool :=
        match sl with
        | some l => decide (item.displayName ∈ l)
        | none => false
      if matched then
        processItems c sl rel rest
          { st with found := st.found ++ [⟨item.nodeId, item.displayName, rel2⟩] }
      else
        let probeRes := c item.nodeId (st.log.count item.nodeId)
        let st2 := { st with log := st.log ++ [item.nodeId] }
        let isFolder : Bool :=
          match probeRes with
          | some (_ :: _) => true
          | _ => false
        if isFolder ∧ item.nodeId ∉ st2.visited then
          processItems c sl rel rest
            { st2 with
              queue := st2.queue ++ [(item.nodeId, rel2)],
              visited := item.nodeId :: st2.visited }
        else
          processItems c sl rel rest st2

/-- The while-loop of browse_opc_iterative (lines 109-188): pop the
head of the queue, browse it, process its items; an exception or a None
listing skips the node and traversal continues.  The fuel argument is
the remaining iteration budget (max_iterations minus iterations done),
so the loop runs while the queue is nonempty and fewer than
max_iterations work items have been processed. -/
def browseLoop (c : Client) (sl : Option (List String)) :
    Nat → BState → BState
  | 0, st => st
  | Nat.succ f, st =>
    match st.queue with
    | [] => st
    | (nid, rel) :: rest =>
      let res := c nid (st.log.count nid)
      let st1 : BState :=
        { st with
          queue := rest,
          iterations := st.iterations + 1,
          log := st.log ++ [nid],
          mainLog := st.mainLog ++ [nid] }
      match res with
      | none => browseLoop c sl f st1
      | some items =>
          browseLoop c sl f
            (processItems c sl rel items
              { st1 with itemsTotal := st1.itemsTotal + items.length })

/-- browse_opc_iterative (lines 43-200).  search_tag_names is already
normalized: the script turns a single string s into [s] and keeps None
as None, so the embedding takes an Option (List String). -/
def browseOpcIterative (c : Client) (base : String)
    (sl : Option (List String)) (maxIter : Nat) : BState :=
  browseLoop c sl maxIter
    { queue := [(base, "")], visited := [base], found := [], log := [],
      mainLog := [], itemsTotal := 0, iterations := 0 }

/-- The warning condition after the loop (line 190):
iteration_count >= max_iterations prints the maximum-iteration warning. -/
def browseWarned (c : Client) (base : String)
    (sl : Option (List String)) (maxIter : Nat) : Bool :=
  decide (maxIter ≤ (browseOpcIterative c base sl maxIter).iterations)

/-- The destination tag store: the set of tag paths (with provider
prefix) that currently exist.  system.tag.exists checks membership;
system.tag.configure adds the configured child path. -/
abbrev Dest : Type := List String

/-- The log of destination-store calls issued by a run: every
system.tag.exists call, every system.tag.configure call creating a
folder, every system.tag.configure call creating a tag, and the full
tag path of every tag processed by create_opc_tag (whether it already
existed or was created). -/
structure CallLog where
  existsChecks : List String
  folderCalls : List String
  tagCalls : List String
  tagPaths : List String
deriving DecidableEq

/-- The empty call log at the start of a run. -/
def emptyLog : CallLog :=
  { existsChecks := [], folderCalls := [], tagCalls := [], tagPaths := [] }

/-- parent_path.endswith('/'): the last character is a slash. -/
def endsWithSlash (s : String) : Bool :=
  match s.data.getLast? with
  | some ch => ch = '/'
  | none => false

/-- The folder-path concatenation of create_folder_structure
(lines 286-292), duplicated verbatim in the folder-cache hit branch of
create_tags_from_list (lines 429-432): append the folder name, with a
separating slash unless the parent is empty or already ends in one. -/
def joinPath (parent name : String) : String :=
  if parent ≠ "" then
    if endsWithSlash parent then parent ++ name else parent ++ "/" ++ name
  else name

/-- The provider-qualified path built by create_folder_structure
(lines 295-298): prepend [provider] when a provider is given. -/
def provPath (prov p : String) : String :=
  if prov ≠ "" then "[" ++ prov ++ "]" ++ p else p

/-- The full tag path built by create_opc_tag (lines 339-348). -/
def tagFullPath (prov tagPath tagName : String) : String :=
  if prov ≠ "" then
    if tagPath ≠ "" then "[" ++ prov ++ "]" ++ tagPath ++ "/" ++ tagName
    else "[" ++ prov ++ "]" ++ tagName
  else
    if tagPath ≠ "" then tagPath ++ "/" ++ tagName else tagName

/-- create_folder_structure (lines 273-320): build the folder path,
check destination existence, configure the folder only when absent, and
return the folder path either way.  The configure call is modelled as
succeeding and making the full path exist. -/
def createFolderStructure (prov parent name : String) (d : Dest)
    (L : CallLog) : String × Dest × CallLog :=
  let folderPath := joinPath parent name
  let fullPath := provPath prov folderPath
  let L1 := { L with existsChecks := L.existsChecks ++ [fullPath] }
  if fullPath ∈ d then (folderPath, d, L1)
  else
    (folderPath, fullPath :: d,
      { L1 with folderCalls := L1.folderCalls ++ [fullPath] })

/-- create_opc_tag (lines 323-375): build the full tag path, check
destination existence (returning True without configuring when it
already exists), otherwise configure the tag.  The configure call is
modelled as succeeding, so the function always returns true; the
processed full tag path is recorded in tagPaths either way. -/
def createOpcTag (prov tagPath tagName : String) (d : Dest)
    (L : CallLog) : Bool × Dest × CallLog :=
  let fullTagPath := tagFullPath prov tagPath tagName
  let L1 :=
    { L with
      existsChecks := L.existsChecks ++ [fullTagPath],
      tagPaths := L.tagPaths ++ [fullTagPath] }
  if fullTagPath ∈ d then (true, d, L1)
  else
    (true, fullTagPath :: d,
      { L1 with tagCalls := L1.tagCalls ++ [fullTagPath] })

/-- Python str.split on a single character, structurally: splitting an
empty string yields one empty part, and each separator character opens
a new part. -/
def splitChars : List Char → List (List Char)
  | [] => [[]]
  | c :: cs =>
    let r := splitChars cs
    if c = '/' then [] :: r
    else
      match r with
      | [] => [[c]]
      | h :: t => (c :: h) :: t

/-- relative_path.split('/'): the slash-separated parts of a path. -/
def splitSlash (s : String) : List String :=
  (splitChars s.data).map (fun l => { data := l })

/-- The mutable state of the create_tags_from_list loop: the running
current_path, the folder_cache set, the destination store, the call
log, and the two counters. -/
structure TState where
  current : String
  cache : List String
  dest : Dest
  log : CallLog
  foldersCreated : Nat
  tagsCreated : Nat
deriving DecidableEq

/-- One step of the folder-structure loop of create_tags_from_list
(lines 422-432): a cache hit only extends current_path, a miss calls
create_folder_structure, records the key and counts the folder. -/
def stepFolder (prov : String) (st : TState) (seg : String) : TState :=
  let key := st.current ++ "/" ++ seg
  if key ∈ st.cache then
    { st with current := joinPath st.current seg }
  else
    let r := createFolderStructure prov st.current seg st.dest st.log
    { st with
      current := r.1, cache := key :: st.cache, dest := r.2.1,
      log := r.2.2, foldersCreated := st.foldersCreated + 1 }

/-- The body of the per-tag loop of create_tags_from_list
(lines 407-449): reset current_path to the root path, walk the folder
segments of the relative path, then create the tag and count a created
tag on a True return. -/
def processOne (prov rootPath : String) (st : TState) (t : TagInfo) :
    TState :=
  let segs := (splitSlash t.relative_path).dropLast
  let st1 := segs.foldl (stepFolder prov) { st with current := rootPath }
  let r := createOpcTag prov st1.current t.display_name st1.dest st1.log
  { st1 with
    dest := r.2.1, log := r.2.2,
    tagsCreated := st1.tagsCreated + (if r.1 then 1 else 0) }

/-- A value in a result dictionary: a boolean or a number. -/
inductive RVal where
  | b : Bool → RVal
  | n : Nat → RVal
deriving DecidableEq

/-- The outcome of create_tags_from_list: the returned summary dict (as
an ordered key-value list), the final destination store and the call
log of the run. -/
structure CTResult where
  result : List (String × RVal)
  dest : Dest
  log : CallLog
  tagsCreated : Nat
  foldersCreated : Nat
deriving DecidableEq

/-- create_tags_from_list (lines 378-467): create the root folder,
then process every found tag, and return the summary dict
{'success': True, 'tags_created': ..., 'folders_created': ...}.
The opc server name, data type and chunk pacing do not affect the
destination paths and are omitted from the model. -/
def createTagsFromList (found : List TagInfo) (prov root : String)
    (d : Dest) : CTResult :=
  let r0 := createFolderStructure prov "" root d emptyLog
  let st0 : TState :=
    { current := r0.1, cache := [], dest := r0.2.1, log := r0.2.2,
      foldersCreated := 1, tagsCreated := 0 }
  let stF := found.foldl (processOne prov r0.1) st0
  { result :=
      [("success", RVal.b true), ("tags_created", RVal.n stF.tagsCreated),
       ("folders_created", RVal.n stF.foldersCreated)],
    dest := stF.dest, log := stF.log,
    tagsCreated := stF.tagsCreated, foldersCreated := stF.foldersCreated }

/-- Whether the character list s starts with the character list k. -/
def startsWithChars : List Char → List Char → Bool
  | _, [] => true
  | [], _ :: _ => false
  | c :: cs, d :: ds => (c = d) && startsWithChars cs ds

/-- Whether k occurs as a contiguous substring of s (Python: k in s),
on character lists. -/
def hasSubChars : List Char → List Char → Bool
  | s, k =>
    if startsWithChars s k then true
    else
      match s with
      | [] => false
      | _ :: cs => hasSubChars cs k

/-- Python substring membership: key in value (on strings). -/
def subStr (key s : String) : Bool := hasSubChars s.data key.data

/-- The type_map of detect_opc_data_type
(src/import_deltav_opc_tags_ui.py lines 41-54), in source order. -/
def typeMap : List (String × String) :=
  [("float", "Float8"), ("java.lang.Float", "Float4"),
   ("java.lang.Double", "Float8"), ("int", "Int4"), ("long", "Int8"),
   ("java.lang.Integer", "Int4"), ("java.lang.Long", "Int8"),
   ("bool", "Boolean"), ("java.lang.Boolean", "Boolean"),
   ("str", "String"), ("unicode", "String"),
   ("java.lang.String", "String")]

/-- The matching loop of detect_opc_data_type (lines 57-59): return
the first map entry whose lowercased key is a substring of the
lowercased value type name; fall through when none matches. -/
def lookupTypeIn : List (String × String) → String → Option String
  | [], _ => none
  | (k, t) :: rest, vt =>
    if subStr k.toLower vt.toLower then some t else lookupTypeIn rest vt

/-- The result of reading a remote value: none models a raised
exception, some none a None value, some (some tn) a value whose
runtime type name (type(value).__name__) is tn. -/
abbrev ReadResult : Type := Option (Option String)

/-- detect_opc_data_type (lines 21-66).  The oracle maps the attempt
index to the read outcome; the script issues exactly one
system.opc.readValue call, which is attempt 0.  A raised read, a None
value, and an unmatched type name all yield the 'Float8' default. -/
def detectOpcDataType (oracle : Nat → ReadResult) : String :=
  match oracle 0 with
  | none => "Float8"
  | some none => "Float8"
  | some (some vt) =>
    match lookupTypeIn typeMap vt with
    | some t => t
    | none => "Float8"

/-- The canonical data types of the spec, in the source's spelling:
Float64 = Float8, Float32 = Float4, Int32 = Int4, Int64 = Int8. -/
def canonicalTypes : List String :=
  ["Float8", "Float4", "Int4", "Int8", "Boolean", "String"]

/-- '/'.join(parts): interleave the parts with single slashes. -/
def joinSlash : List String → String
  | [] => ""
  | [s] => s
  | s :: rest => s ++ "/" ++ joinSlash rest

/-- The folder path of one found tag in print_tag_paths
(lines 228-234): everything of the relative path except the last
segment, empty when the path has a single segment. -/
def dryFolderPath (t : TagInfo) : String :=
  let parts := splitSlash t.relative_path
  if 1 < parts.length then joinSlash parts.dropLast else ""

/-- The Ignition path printed for one found tag by print_tag_paths
(lines 236-240); the provider bracket is always prepended here. -/
def dryIgnitionPath (prov root : String) (t : TagInfo) : String :=
  let folderPath := dryFolderPath t
  if folderPath ≠ "" then
    "[" ++ prov ++ "]" ++ root ++ "/" ++ folderPath ++ "/" ++ t.display_name
  else
    "[" ++ prov ++ "]" ++ root ++ "/" ++ t.display_name

/-- Insert one entry into the folder_structure dict (line 243-249):
append to the bucket of an existing key, else add a new key with a
one-entry bucket. -/
def addGroup : List (String × List String) → String → String →
    List (String × List String)
  | [], k, p => [(k, [p])]
  | (k0, ps) :: rest, k, p =>
    if k0 = k then (k0, ps ++ [p]) :: rest
    else (k0, ps) :: addGroup rest k p

/-- Look up the bucket of a key in the folder_structure dict. -/
def findGroup : List (String × List String) → String → List String
  | [], _ => []
  | (k0, ps) :: rest, k => if k0 = k then ps else findGroup rest k

/-- Insert a string into a list sorted in nondecreasing order. -/
def insertStr (x : String) : List String → List String
  | [] => [x]
  | y :: ys => if x ≤ y then x :: y :: ys else y :: insertStr x ys

/-- sorted(keys): insertion sort of the key list. -/
def sortStr : List String → List String
  | [] => []
  | x :: xs => insertStr x (sortStr xs)

/-- print_tag_paths (lines 203-270) restricted to what it prints per
tag: group the tags' Ignition paths by folder path, then emit the
buckets in sorted key order.  The returned list is the sequence of
ignition_path values printed. -/
def printTagPaths (found : List TagInfo) (root prov : String) :
    List String :=
  let groups := found.foldl
    (fun g t => addGroup g (dryFolderPath t) (dryIgnitionPath prov root t)) []
  (sortStr (groups.map Prod.fst)).flatMap (findGroup groups)

/-- The outcome of one whole job run (main, lines 470-575, with its
configuration block lifted to parameters): the returned result dict
(as an ordered key-value list), the final destination store, the
destination call log, the discovered leaf list and the dry-run
preview paths. -/
structure MainOut where
  result : List (String × RVal)
  dest : Dest
  log : CallLog
  found : List TagInfo
  dryPrinted : List String
deriving DecidableEq

/-- main (lines 470-575): browse, return {'success': False,
'tags_found': 0} on an empty result before any destination call,
otherwise either preview (dry run) or materialize.  The wall-clock
times are inputs of the model. -/
def mainRun (c : Client) (base prov root : String)
    (sl : Option (List String)) (maxIter : Nat) (dryRun : Bool)
    (d : Dest) (browseTime totalTime : Nat) : MainOut :=
  let found := (browseOpcIterative c base sl maxIter).found
  if found = [] then
    { result := [("success", RVal.b false), ("tags_found", RVal.n 0)],
      dest := d, log := emptyLog, found := found, dryPrinted := [] }
  else if dryRun then
    { result :=
        [("success", RVal.b true), ("dry_run", RVal.b true),
         ("tags_found", RVal.n found.length),
         ("browse_time_seconds", RVal.n browseTime)],
      dest := d, log := emptyLog, found := found,
      dryPrinted := printTagPaths found root prov }
  else
    let r := createTagsFromList found prov root d
    { result :=
        r.result ++
          [("browse_time_seconds", RVal.n browseTime),
           ("total_time_seconds", RVal.n totalTime)],
      dest := r.dest, log := r.log, found := found, dryPrinted := [] }

/-- The traversal invariant behind the visited set: no node id occurs
twice among the work-item browses already done plus the queued work
items, and every such id has been marked visited. -/
def BInv (st : BState) : Prop :=
  (st.mainLog ++ st.queue.map Prod.fst).Nodup ∧
  ∀ x ∈ st.mainLog ++ st.queue.map Prod.fst, x ∈ st.visited

/-- A namespace with base node B, a folder F (id f) under it, and a
leaf L (id l) inside the folder; every browse succeeds on every
attempt. -/
def treeClient : Client := fun nid _ =>
  if nid = "B" then some [⟨"F", "f"⟩]
  else if nid = "f" then some [⟨"L", "l"⟩]
  else if nid = "l" then some []
  else none

/-- A namespace with base node B containing folder A (id a), which
contains the leaf CV (id cv). -/
def cvClient : Client := fun nid _ =>
  if nid = "B" then some [⟨"A", "a"⟩]
  else if nid = "a" then some [⟨"CV", "cv"⟩]
  else none

/-- A remote whose base node has no children at all. -/
def emptyClient : Client := fun _ _ => some []

/-- A remote on which every browse call raises. -/
def failClient : Client := fun _ _ => none

/-- A value read that raises on the first attempt and returns a bool
value on every later attempt. -/
def retryOracle : Nat → ReadResult := fun n =>
  if n = 0 then none else some (some "bool")

/-- A traversal state whose queue holds the single node id x, used to
instantiate the no-retry statement about the browse loop. -/
def oneNodeState : BState :=
  { queue := [("x", "")], visited := ["x"], found := [], log := [],
    mainLog := [], itemsTotal := 0, iterations := 0 }

lemma processItems_found_of_none (c : Client) (rel : String) :
    ∀ (items : List Item) (st : BState),
    (processItems c none rel items st).found = st.found := by
  intro items
  induction items with
  | nil => intro st; rfl
  | cons item rest ih =>
    intro st
    simp only [processItems]
    split
    · exact ih st
    · split
      · next h => simp at h
      · split
        · exact ih _
        · exact ih _

lemma browseLoop_found_of_none (c : Client) :
    ∀ (fuel : Nat) (st : BState),
    (browseLoop c none fuel st).found = st.found := by
  intro fuel
  induction fuel with
  | zero => intro st; rfl
  | succ f ih =>
    intro st
    simp only [browseLoop]
    split
    · rfl
    · split
      · exact ih _
      · rw [ih, processItems_found_of_none]

lemma processItems_iterations (c : Client) (sl : Option (List String))
    (rel : String) : ∀ (items : List Item) (st : BState),
    (processItems c sl rel items st).iterations = st.iterations := by
  intro items
  induction items with
  | nil => intro st; rfl
  | cons item rest ih =>
    intro st
    simp only [processItems]
    split
    · exact ih st
    · split
      · exact ih _
      · split
        · exact ih _
        · exact ih _

lemma processItems_mainLog (c : Client) (sl : Option (List String))
    (rel : String) : ∀ (items : List Item) (st : BState),
    (processItems c sl rel items st).mainLog = st.mainLog := by
  intro items
  induction items with
  | nil => intro st; rfl
  | cons item rest ih =>
    intro st
    simp only [processItems]
    split
    · exact ih st
    · split
      · exact ih _
      · split
        · exact ih _
        · exact ih _

lemma processItems_inv (c : Client) (sl : Option (List String))
    (rel : String) : ∀ (items : List Item) (st : BState),
    BInv st → BInv (processItems c sl rel items st) := by
  intro items
  induction items with
  | nil => intro st h; exact h
  | cons item rest ih =>
    intro st h
    simp only [processItems]
    split
    · exact ih st h
    · split
      · exact ih _ h
      · split
        · next hc =>
          apply ih
          obtain ⟨h1, h2⟩ := h
          obtain ⟨hf, hnv⟩ := hc
          have hid : item.nodeId ∉ st.mainLog ++ st.queue.map Prod.fst :=
            fun hx => hnv (h2 _ hx)
          constructor
          · show (st.mainLog ++
              (st.queue ++ [(item.nodeId, _)]).map Prod.fst).Nodup
            rw [List.map_append, ← List.append_assoc]
            refine List.Nodup.append h1 (List.nodup_singleton _) ?_
            intro x hx hx1
            simp only [List.map_cons, List.map_nil, List.mem_singleton] at hx1
            exact hid (hx1 ▸ hx)
          · intro x hx
            simp only [List.map_append, List.map_cons, List.map_nil,
              List.mem_append, List.mem_singleton] at hx
            rcases hx with hx | hx | hx
            · exact List.mem_cons_of_mem _ (h2 x (List.mem_append_left _ hx))
            · exact List.mem_cons_of_mem _ (h2 x (List.mem_append_right _ hx))
            · exact hx ▸ List.mem_cons_self _ _
        · exact ih _ h

lemma browseLoop_inv (c : Client) (sl : Option (List String)) :
    ∀ (fuel : Nat) (st : BState), BInv st → BInv (browseLoop c sl fuel st) := by
  intro fuel
  induction fuel with
  | zero => intro st h; exact h
  | succ f ih =>
    intro st h
    simp only [browseLoop]
    split
    · exact h
    · next nid rel rest heq =>
      obtain ⟨h1, h2⟩ := h
      rw [heq] at h1 h2
      have h1s : ((st.mainLog ++ [nid]) ++ rest.map Prod.fst).Nodup := by
        rw [List.append_assoc]
        simpa using h1
      have h2s : ∀ x ∈ (st.mainLog ++ [nid]) ++ rest.map Prod.fst,
          x ∈ st.visited := by
        intro x hx
        apply h2
        rw [List.append_assoc] at hx
        simpa using hx
      split
      · exact ih _ ⟨h1s, h2s⟩
      · exact ih _ (processItems_inv c sl rel _ _ ⟨h1s, h2s⟩)

lemma browseLoop_iterations_le (c : Client) (sl : Option (List String)) :
    ∀ (fuel : Nat) (st : BState),
    (browseLoop c sl fuel st).iterations ≤ st.iterations + fuel := by
  intro fuel
  induction fuel with
  | zero => intro st; simp [browseLoop]
  | succ f ih =>
    intro st
    simp only [browseLoop]
    split
    · exact Nat.le_add_right _ _
    · next nid rel rest heq =>
      split
      · next heq2 =>
        have key := ih ({ st with
          queue := rest, iterations := st.iterations + 1,
          log := st.log ++ [nid], mainLog := st.mainLog ++ [nid] } : BState)
        have key2 : ({ st with
          queue := rest, iterations := st.iterations + 1,
          log := st.log ++ [nid], mainLog := st.mainLog ++ [nid] } : BState).iterations
            = st.iterations + 1 := rfl
        omega
      · next items heq2 =>
        have key := ih (processItems c sl rel items
          ({ st with
             queue := rest, iterations := st.iterations + 1,
             log := st.log ++ [nid], mainLog := st.mainLog ++ [nid],
             itemsTotal := st.itemsTotal + items.length } : BState))
        rw [processItems_iterations] at key
        have key2 : ({ st with
          queue := rest, iterations := st.iterations + 1,
          log := st.log ++ [nid], mainLog := st.mainLog ++ [nid],
          itemsTotal := st.itemsTotal + items.length } :
            BState).iterations = st.iterations + 1 := rfl
        omega

lemma browseLoop_term (c : Client) (sl : Option (List String)) :
    ∀ (fuel : Nat) (st : BState),
    (browseLoop c sl fuel st).queue = [] ∨
      st.iterations + fuel ≤ (browseLoop c sl fuel st).iterations := by
  intro fuel
  induction fuel with
  | zero => intro st; right; simp [browseLoop]
  | succ f ih =>
    intro st
    simp only [browseLoop]
    split
    · next heq => left; exact heq
    · next nid rel rest heq =>
      split
      · next heq2 =>
        rcases ih ({ st with
          queue := rest, iterations := st.iterations + 1,
          log := st.log ++ [nid], mainLog := st.mainLog ++ [nid] } : BState) with h | h
        · left; exact h
        · right
          have key2 : ({ st with
            queue := rest,
            iterations := st.iterations + 1, log := st.log ++ [nid],
            mainLog := st.mainLog ++ [nid] } : BState).iterations
              = st.iterations + 1 := rfl
          omega
      · next items heq2 =>
        rcases ih (processItems c sl rel items
          ({ st with
             queue := rest, iterations := st.iterations + 1,
             log := st.log ++ [nid], mainLog := st.mainLog ++ [nid],
             itemsTotal := st.itemsTotal + items.length } : BState)) with h | h
        · left; exact h
        · right
          rw [processItems_iterations] at h
          have key2 : ({ st with
            queue := rest,
            iterations := st.iterations + 1, log := st.log ++ [nid],
            mainLog := st.mainLog ++ [nid],
            itemsTotal := st.itemsTotal + items.length } : BState).iterations
              = st.iterations + 1 := rfl
          omega

/-- C1 (code bug): when the name filter is None, browse_opc_iterative
never records any tag: matches_search is only assigned when search_list
is not None, so with a None filter every child is probed and, terminal
or not, discarded, and the returned found_tags list is always empty.
This contradicts the function's own docstring ('None: returns all leaf
tags') and the spec sentence that a None filter collects every terminal
node. -/
theorem claim_C1_none_filter_found_empty :
    ∀ (c : Client) (base : String) (maxIter : Nat),
    (browseOpcIterative c base none maxIter).found = [] := by
  intro c base maxIter
  unfold browseOpcIterative
  rw [browseLoop_found_of_none]

/-- C4 counterexample: in the namespace of treeClient (base B, folder F
with id f, leaf L with id l), the node id f is passed to
system.opc.browseServer twice during one discovery job: once as the
speculative child probe under B and once when f is dequeued as a work
item.  So a node id is not browsed at most once. -/
theorem claim_C4_counterexample :
    ¬ ((browseOpcIterative treeClient "B" none 10).log.count "f" ≤ 1) := by
  decide

/-- C4 amended: each node identifier is dequeued and browsed as a work
item at most once per job (the visited set guards enqueuing, so the
work-item browse log has no duplicates and traversal is bounded even
with back-references); speculative child probes, however, may browse an
identifier once per referencing parent in addition to its work-item
browse. -/
theorem claim_C4_amended_worklist_nodup :
    ∀ (c : Client) (base : String) (sl : Option (List String))
    (maxIter : Nat),
    ((browseOpcIterative c base sl maxIter).mainLog).Nodup := by
  intro c base sl maxIter
  have h0 : BInv ⟨[(base, "")], [base], [], [], [], 0, 0⟩ := by
    constructor
    · simp
    · intro x hx; simpa using hx
  have h := browseLoop_inv c sl maxIter _ h0
  exact h.1.of_append_left

/-- C7: discovery always terminates with at most maxIterations work
items processed; the loop ends exactly when the queue is empty or the
iteration bound is reached, and the warning is printed precisely when
iteration_count reached max_iterations, while the found tags are
returned in either case (browseOpcIterative is total and its result
carries the found list whatever the warning flag is). -/
theorem claim_C7_termination :
    ∀ (c : Client) (base : String) (sl : Option (List String))
    (maxIter : Nat),
    (browseOpcIterative c base sl maxIter).iterations ≤ maxIter ∧
    ((browseOpcIterative c base sl maxIter).queue = [] ∨
      (browseOpcIterative c base sl maxIter).iterations = maxIter) ∧
    (browseWarned c base sl maxIter = true ↔
      maxIter ≤ (browseOpcIterative c base sl maxIter).iterations) := by
  intro c base sl maxIter
  have h1 := browseLoop_iterations_le c sl maxIter
    ⟨[(base, "")], [base], [], [], [], 0, 0⟩
  have h2 := browseLoop_term c sl maxIter
    ⟨[(base, "")], [base], [], [], [], 0, 0⟩
  refine ⟨?_, ?_, ?_⟩
  · simpa [browseOpcIterative] using h1
  · rcases h2 with h | h
    · left; simpa [browseOpcIterative] using h
    · right
      simp only [browseOpcIterative]
      simp only [browseOpcIterative] at h1
      simp only at h h1
      omega
  · simp [browseWarned]

/-- C3 counterexample: a value read that fails on its first attempt and
would succeed with a bool value on the second attempt does not yield
the successful result (which would map to 'Boolean'): the code issues
no retry and falls back to the 'Float8' default after the single failed
attempt. -/
theorem claim_C3_counterexample :
    retryOracle 0 = none ∧ retryOracle 1 = some (some "bool") ∧
    detectOpcDataType retryOracle ≠ "Boolean" := by
  refine ⟨rfl, rfl, ?_⟩
  decide

/-- C3 amended: remote calls are not retried; every remote call is
attempted exactly once with no delay.  A value read whose single
attempt fails yields the 'Float8' default regardless of what later
attempts would return, and a work-item browse whose single attempt
fails causes the node to be skipped immediately, traversal continuing
with the rest of the queue. -/
theorem claim_C3_amended_no_retry :
    (∀ (oracle : Nat → ReadResult), oracle 0 = none →
      detectOpcDataType oracle = "Float8") ∧
    (∀ (c : Client) (sl : Option (List String)) (fuel : Nat)
      (st : BState) (nid rel : String) (q : List (String × String)),
      st.queue = (nid, rel) :: q → c nid (st.log.count nid) = none →
      browseLoop c sl (fuel + 1) st =
        browseLoop c sl fuel { st with
          queue := q, iterations := st.iterations + 1,
          log := st.log ++ [nid], mainLog := st.mainLog ++ [nid] }) := by
  constructor
  · intro oracle h
    unfold detectOpcDataType
    rw [h]
  · intro c sl fuel st nid rel q hq hc
    simp only [browseLoop]
    split
    · next heq => rw [hq] at heq; cases heq
    · next nid2 rel2 q2 heq =>
      rw [hq] at heq
      injection heq with h1 h2
      injection h1 with hn hr
      subst hn; subst hr; subst h2
      split
      · rfl
      · next items hcc => rw [hc] at hcc; cases hcc

/-- Witness for the amended C3: the concrete failing oracle yields the
default type, and a concrete one-node traversal state whose browse
fails is skipped in one step. -/
theorem claim_C3_witness :
    detectOpcDataType retryOracle = "Float8" ∧
    browseLoop failClient none 1 oneNodeState =
      browseLoop failClient none 0 { oneNodeState with
        queue := [], iterations := 1, log := ["x"], mainLog := ["x"] } := by
  constructor
  · exact claim_C3_amended_no_retry.1 retryOracle rfl
  · exact claim_C3_amended_no_retry.2 failClient none 0 oneNodeState
      "x" "" [] rfl rfl

lemma lookupTypeIn_mem :
    ∀ (l : List (String × String)) (vt t : String),
    lookupTypeIn l vt = some t → t ∈ l.map Prod.snd := by
  intro l
  induction l with
  | nil => intro vt t h; cases h
  | cons p rest ih =>
    intro vt t h
    simp only [lookupTypeIn] at h
    split at h
    · injection h with h
      simp [h.symm]
    · simp only [List.map_cons, List.mem_cons]
      right
      exact ih vt t h

/-- C8: detect_opc_data_type is total (never raises to its caller,
modelled by the embedding being a total function), always returns one
of the canonical types Float8, Float4, Int4, Int8, Boolean, String,
and returns the Float8 default when the read raises, when the value is
None, and when the value's runtime type name matches no entry of the
precedence table. -/
theorem claim_C8_type_resolution_total :
    ∀ (oracle : Nat → ReadResult),
    detectOpcDataType oracle ∈ canonicalTypes ∧
    (oracle 0 = none → detectOpcDataType oracle = "Float8") ∧
    (oracle 0 = some none → detectOpcDataType oracle = "Float8") ∧
    (∀ vt, oracle 0 = some (some vt) → lookupTypeIn typeMap vt = none →
      detectOpcDataType oracle = "Float8") := by
  intro oracle
  refine ⟨?_, ?_, ?_, ?_⟩
  · unfold detectOpcDataType
    split
    · decide
    · decide
    · split
      · next t h2 =>
        have hm := lookupTypeIn_mem typeMap _ t h2
        simp only [typeMap, List.map_cons, List.map_nil,
          List.mem_cons, List.not_mem_nil, or_false] at hm
        simp only [canonicalTypes, List.mem_cons, List.not_mem_nil, or_false]
        tauto
      · decide
  · intro h; unfold detectOpcDataType; rw [h]
  · intro h; unfold detectOpcDataType; rw [h]
  · intro vt h h2
    unfold detectOpcDataType
    rw [h]
    show (match lookupTypeIn typeMap vt with
      | some t => t
      | none => "Float8") = "Float8"
    rw [h2]

/-- Witness for C8: a read that raises on its only attempt resolves to
the Float8 default. -/
theorem claim_C8_witness :
    detectOpcDataType (fun _ => none) = "Float8" :=
  (claim_C8_type_resolution_total (fun _ => none)).2.1 rfl

/-- C5 counterexample: in a dry run that finds one tag (cvClient with
filter CV), the returned result dict has no failures key and no
tags_created key, so the final result does not always contain the four
fields tagsFound, tagsCreated, foldersCreated, failures. -/
theorem claim_C5_counterexample :
    "failures" ∉ (mainRun cvClient "B" "default" "Target" (some ["CV"])
      10 true [] 0 0).result.map Prod.fst ∧
    "tags_created" ∉ (mainRun cvClient "B" "default" "Target"
      (some ["CV"]) 10 true [] 0 0).result.map Prod.fst := by
  decide

/-- C5 amended: the final result's keys depend on the execution path:
{success, tags_found} when discovery finds nothing, {success, dry_run,
tags_found, browse_time_seconds} in dry-run mode, and {success,
tags_created, folders_created, browse_time_seconds,
total_time_seconds} in live mode; no mode reports a failures field,
live mode omits tags_found, and dry-run mode omits tags_created and
folders_created. -/
theorem claim_C5_amended_result_keys :
    ∀ (c : Client) (base prov root : String) (sl : Option (List String))
    (maxIter : Nat) (dryRun : Bool) (d : Dest) (bt tt : Nat),
    (mainRun c base prov root sl maxIter dryRun d bt tt).result.map
        Prod.fst =
      if (browseOpcIterative c base sl maxIter).found = [] then
        ["success", "tags_found"]
      else if dryRun then
        ["success", "dry_run", "tags_found", "browse_time_seconds"]
      else
        ["success", "tags_created", "folders_created",
         "browse_time_seconds", "total_time_seconds"] := by
  intro c base prov root sl maxIter dryRun d bt tt
  by_cases hf : (browseOpcIterative c base sl maxIter).found = []
  · simp [mainRun, hf]
  · by_cases hd : dryRun
    · simp [mainRun, hf, hd]
    · simp [mainRun, hf, hd, createTagsFromList]

/-- C9: when discovery returns no matching leaves, the job returns
{'success': False, 'tags_found': 0} and issues no destination-store
call at all (no existence check and no configure call), leaving the
destination unchanged, in live mode as well as dry-run mode. -/
theorem claim_C9_empty_discovery :
    ∀ (c : Client) (base prov root : String) (sl : Option (List String))
    (maxIter : Nat) (dryRun : Bool) (d : Dest) (bt tt : Nat),
    (browseOpcIterative c base sl maxIter).found = [] →
    (mainRun c base prov root sl maxIter dryRun d bt tt).result =
      [("success", RVal.b false), ("tags_found", RVal.n 0)] ∧
    (mainRun c base prov root sl maxIter dryRun d bt tt).log = emptyLog ∧
    (mainRun c base prov root sl maxIter dryRun d bt tt).dest = d := by
  intro c base prov root sl maxIter dryRun d bt tt h
  refine ⟨?_, ?_, ?_⟩ <;> simp [mainRun, h]

/-- Witness for C9: a remote whose base node has no children makes the
live-mode job return the failure dict without touching the destination
store. -/
theorem claim_C9_witness :
    (mainRun emptyClient "B" "default" "Target" (some ["CV"]) 5 false []
      0 0).result = [("success", RVal.b false), ("tags_found", RVal.n 0)] ∧
    (mainRun emptyClient "B" "default" "Target" (some ["CV"]) 5 false []
      0 0).log = emptyLog ∧
    (mainRun emptyClient "B" "default" "Target" (some ["CV"]) 5 false []
      0 0).dest = [] :=
  claim_C9_empty_discovery emptyClient "B" "default" "Target"
    (some ["CV"]) 5 false [] 0 0 (by decide)

lemma createFolderStructure_path (prov p n : String) (d : Dest)
    (L : CallLog) :
    (createFolderStructure prov p n d L).1 = joinPath p n := by
  simp only [createFolderStructure]
  split <;> rfl

lemma createFolderStructure_mono (prov p n : String) (d : Dest)
    (L : CallLog) (x : String) (hx : x ∈ d) :
    x ∈ (createFolderStructure prov p n d L).2.1 := by
  simp only [createFolderStructure]
  split
  · exact hx
  · exact List.mem_cons_of_mem _ hx

lemma createFolderStructure_ensures (prov p n : String) (d : Dest)
    (L : CallLog) :
    provPath prov (joinPath p n) ∈ (createFolderStructure prov p n d L).2.1 := by
  simp only [createFolderStructure]
  split
  · next h => exact h
  · exact List.mem_cons_self _ _

lemma createFolderStructure_idem (prov p n : String) (d : Dest)
    (L : CallLog) (h : provPath prov (joinPath p n) ∈ d) :
    (createFolderStructure prov p n d L).2.1 = d ∧
    (createFolderStructure prov p n d L).2.2.folderCalls = L.folderCalls ∧
    (createFolderStructure prov p n d L).2.2.tagCalls = L.tagCalls := by
  simp only [createFolderStructure]
  rw [if_pos h]
  exact ⟨rfl, rfl, rfl⟩

lemma createFolderStructure_frame (prov p n : String) (d : Dest)
    (L : CallLog) :
    (createFolderStructure prov p n d L).2.2.tagCalls = L.tagCalls ∧
    (createFolderStructure prov p n d L).2.2.tagPaths = L.tagPaths := by
  simp only [createFolderStructure]
  split <;> exact ⟨rfl, rfl⟩

lemma createOpcTag_true (prov tp tn : String) (d : Dest) (L : CallLog) :
    (createOpcTag prov tp tn d L).1 = true := by
  simp only [createOpcTag]
  split <;> rfl

lemma createOpcTag_mono (prov tp tn : String) (d : Dest) (L : CallLog)
    (x : String) (hx : x ∈ d) :
    x ∈ (createOpcTag prov tp tn d L).2.1 := by
  simp only [createOpcTag]
  split
  · exact hx
  · exact List.mem_cons_of_mem _ hx

lemma createOpcTag_ensures (prov tp tn : String) (d : Dest) (L : CallLog) :
    tagFullPath prov tp tn ∈ (createOpcTag prov tp tn d L).2.1 := by
  simp only [createOpcTag]
  split
  · next h => exact h
  · exact List.mem_cons_self _ _

lemma createOpcTag_idem (prov tp tn : String) (d : Dest) (L : CallLog)
    (h : tagFullPath prov tp tn ∈ d) :
    (createOpcTag prov tp tn d L).2.1 = d ∧
    (createOpcTag prov tp tn d L).2.2.tagCalls = L.tagCalls ∧
    (createOpcTag prov tp tn d L).2.2.folderCalls = L.folderCalls := by
  simp only [createOpcTag]
  rw [if_pos h]
  exact ⟨rfl, rfl, rfl⟩

lemma createOpcTag_frame (prov tp tn : String) (d : Dest) (L : CallLog) :
    (createOpcTag prov tp tn d L).2.2.folderCalls = L.folderCalls ∧
    (createOpcTag prov tp tn d L).2.2.tagPaths =
      L.tagPaths ++ [tagFullPath prov tp tn] := by
  simp only [createOpcTag]
  split <;> exact ⟨rfl, rfl⟩

lemma stepFolder_current (prov : String) (st : TState) (seg : String) :
    (stepFolder prov st seg).current = joinPath st.current seg := by
  simp only [stepFolder]
  split
  · rfl
  · exact createFolderStructure_path prov st.current seg st.dest st.log

lemma stepFolder_mono (prov : String) (st : TState) (seg : String)
    (x : String) (hx : x ∈ st.dest) :
    x ∈ (stepFolder prov st seg).dest := by
  simp only [stepFolder]
  split
  · exact hx
  · exact createFolderStructure_mono prov st.current seg st.dest st.log x hx

lemma stepFolder_tagFrame (prov : String) (st : TState) (seg : String) :
    (stepFolder prov st seg).log.tagCalls = st.log.tagCalls ∧
    (stepFolder prov st seg).log.tagPaths = st.log.tagPaths := by
  simp only [stepFolder]
  split
  · exact ⟨rfl, rfl⟩
  · exact createFolderStructure_frame prov st.current seg st.dest st.log

lemma stepFolder_sim (prov seg : String) (st1 st2 : TState)
    (hc : st1.current = st2.current) (hk : st1.cache = st2.cache)
    (hd : ∀ x ∈ (stepFolder prov st1 seg).dest, x ∈ st2.dest) :
    (stepFolder prov st2 seg).current = (stepFolder prov st1 seg).current ∧
    (stepFolder prov st2 seg).cache = (stepFolder prov st1 seg).cache ∧
    (stepFolder prov st2 seg).dest = st2.dest ∧
    (stepFolder prov st2 seg).log.folderCalls = st2.log.folderCalls ∧
    (stepFolder prov st2 seg).log.tagCalls = st2.log.tagCalls := by
  have hkey : st2.current ++ "/" ++ seg = st1.current ++ "/" ++ seg := by
    rw [hc]
  by_cases hmem : st1.current ++ "/" ++ seg ∈ st1.cache
  · have hmem2 : st2.current ++ "/" ++ seg ∈ st2.cache := by
      rw [hkey, ← hk]; exact hmem
    simp only [stepFolder]
    rw [if_pos hmem, if_pos hmem2]
    exact ⟨by simp [hc], by simp [hk], rfl, rfl, rfl⟩
  · have hmem2 : st2.current ++ "/" ++ seg ∉ st2.cache := by
      rw [hkey, ← hk]; exact hmem
    have h1 : provPath prov (joinPath st1.current seg) ∈
        (stepFolder prov st1 seg).dest := by
      simp only [stepFolder]
      rw [if_neg hmem]
      exact createFolderStructure_ensures prov st1.current seg st1.dest st1.log
    have hfull := hd _ h1
    rw [hc] at hfull
    have hi := createFolderStructure_idem prov st2.current seg st2.dest
      st2.log hfull
    have hf := createFolderStructure_frame prov st2.current seg st2.dest
      st2.log
    simp only [stepFolder]
    rw [if_neg hmem, if_neg hmem2]
    refine ⟨?_, ?_, hi.1, hi.2.1, hf.1⟩
    · rw [createFolderStructure_path, createFolderStructure_path, hc]
    · simp [hkey, hk]

lemma foldFolders_current (prov : String) :
    ∀ (segs : List String) (st : TState),
    (List.foldl (stepFolder prov) st segs).current =
      List.foldl joinPath st.current segs := by
  intro segs
  induction segs with
  | nil => intro st; rfl
  | cons a l ih =>
    intro st
    simp only [List.foldl_cons]
    rw [ih, stepFolder_current]

lemma foldFolders_mono (prov : String) :
    ∀ (segs : List String) (st : TState) (x : String), x ∈ st.dest →
    x ∈ (List.foldl (stepFolder prov) st segs).dest := by
  intro segs
  induction segs with
  | nil => intro st x hx; exact hx
  | cons a l ih =>
    intro st x hx
    simp only [List.foldl_cons]
    exact ih _ x (stepFolder_mono prov st a x hx)

lemma foldFolders_tagFrame (prov : String) :
    ∀ (segs : List String) (st : TState),
    (List.foldl (stepFolder prov) st segs).log.tagCalls = st.log.tagCalls ∧
    (List.foldl (stepFolder prov) st segs).log.tagPaths = st.log.tagPaths := by
  intro segs
  induction segs with
  | nil => intro st; exact ⟨rfl, rfl⟩
  | cons a l ih =>
    intro st
    simp only [List.foldl_cons]
    have h1 := stepFolder_tagFrame prov st a
    have h2 := ih (stepFolder prov st a)
    exact ⟨h2.1.trans h1.1, h2.2.trans h1.2⟩

lemma stepFolder_tagsCreated (prov : String) (st : TState) (seg : String) :
    (stepFolder prov st seg).tagsCreated = st.tagsCreated := by
  simp only [stepFolder]
  split
  · rfl
  · rfl

lemma foldFolders_tagsCreated (prov : String) :
    ∀ (segs : List String) (st : TState),
    (List.foldl (stepFolder prov) st segs).tagsCreated = st.tagsCreated := by
  intro segs
  induction segs with
  | nil => intro st; rfl
  | cons a l ih =>
    intro st
    simp only [List.foldl_cons]
    rw [ih, stepFolder_tagsCreated]

lemma foldFolders_sim (prov : String) :
    ∀ (segs : List String) (st1 st2 : TState),
    st1.current = st2.current → st1.cache = st2.cache →
    (∀ x ∈ (List.foldl (stepFolder prov) st1 segs).dest, x ∈ st2.dest) →
    (List.foldl (stepFolder prov) st2 segs).current =
      (List.foldl (stepFolder prov) st1 segs).current ∧
    (List.foldl (stepFolder prov) st2 segs).cache =
      (List.foldl (stepFolder prov) st1 segs).cache ∧
    (List.foldl (stepFolder prov) st2 segs).dest = st2.dest ∧
    (List.foldl (stepFolder prov) st2 segs).log.folderCalls =
      st2.log.folderCalls ∧
    (List.foldl (stepFolder prov) st2 segs).log.tagCalls =
      st2.log.tagCalls := by
  intro segs
  induction segs with
  | nil =>
    intro st1 st2 hc hk hd
    exact ⟨hc.symm, hk.symm, rfl, rfl, rfl⟩
  | cons a l ih =>
    intro st1 st2 hc hk hd
    simp only [List.foldl_cons] at hd ⊢
    have hd1 : ∀ x ∈ (stepFolder prov st1 a).dest, x ∈ st2.dest :=
      fun x hx => hd x (foldFolders_mono prov l _ x hx)
    have hstep := stepFolder_sim prov a st1 st2 hc hk hd1
    have hd2 : ∀ x ∈
        (List.foldl (stepFolder prov) (stepFolder prov st1 a) l).dest,
        x ∈ (stepFolder prov st2 a).dest := by
      intro x hx
      rw [hstep.2.2.1]
      exact hd x hx
    have hrec := ih (stepFolder prov st1 a) (stepFolder prov st2 a)
      hstep.1.symm hstep.2.1.symm hd2
    exact ⟨hrec.1, hrec.2.1, hrec.2.2.1.trans hstep.2.2.1,
      hrec.2.2.2.1.trans hstep.2.2.2.1,
      hrec.2.2.2.2.trans hstep.2.2.2.2⟩

lemma processOne_mono (prov rootPath : String) (t : TagInfo)
    (st : TState) (x : String) (hx : x ∈ st.dest) :
    x ∈ (processOne prov rootPath st t).dest := by
  simp only [processOne]
  exact createOpcTag_mono _ _ _ _ _ x
    (foldFolders_mono prov _ { st with current := rootPath } x hx)

lemma processOne_tagsCreated (prov rootPath : String) (t : TagInfo)
    (st : TState) :
    (processOne prov rootPath st t).tagsCreated = st.tagsCreated + 1 := by
  simp only [processOne]
  rw [createOpcTag_true]
  have hB := foldFolders_tagsCreated prov
    ((splitSlash t.relative_path).dropLast) { st with current := rootPath }
  simp [hB]

lemma processOne_sim (prov rootPath : String) (t : TagInfo)
    (st1 st2 : TState) (hk : st1.cache = st2.cache)
    (hd : ∀ x ∈ (processOne prov rootPath st1 t).dest, x ∈ st2.dest) :
    (processOne prov rootPath st2 t).cache =
      (processOne prov rootPath st1 t).cache ∧
    (processOne prov rootPath st2 t).dest = st2.dest ∧
    (processOne prov rootPath st2 t).log.folderCalls =
      st2.log.folderCalls ∧
    (processOne prov rootPath st2 t).log.tagCalls = st2.log.tagCalls := by
  simp only [processOne] at hd ⊢
  have hd1 : ∀ x ∈ (List.foldl (stepFolder prov)
      { st1 with current := rootPath }
      ((splitSlash t.relative_path).dropLast)).dest,
      x ∈ ({ st2 with current := rootPath } : TState).dest :=
    fun x hx => hd x (createOpcTag_mono _ _ _ _ _ x hx)
  have hsim := foldFolders_sim prov ((splitSlash t.relative_path).dropLast)
    { st1 with current := rootPath } { st2 with current := rootPath }
    rfl hk hd1
  have hfull := hd _ (createOpcTag_ensures prov
    (List.foldl (stepFolder prov) { st1 with current := rootPath }
      ((splitSlash t.relative_path).dropLast)).current t.display_name
    (List.foldl (stepFolder prov) { st1 with current := rootPath }
      ((splitSlash t.relative_path).dropLast)).dest
    (List.foldl (stepFolder prov) { st1 with current := rootPath }
      ((splitSlash t.relative_path).dropLast)).log)
  have hfull2 : tagFullPath prov
      (List.foldl (stepFolder prov) { st2 with current := rootPath }
        ((splitSlash t.relative_path).dropLast)).current t.display_name ∈
      (List.foldl (stepFolder prov) { st2 with current := rootPath }
        ((splitSlash t.relative_path).dropLast)).dest := by
    rw [hsim.1, hsim.2.2.1]
    exact hfull
  have hti := createOpcTag_idem prov
    (List.foldl (stepFolder prov) { st2 with current := rootPath }
      ((splitSlash t.relative_path).dropLast)).current t.display_name
    (List.foldl (stepFolder prov) { st2 with current := rootPath }
      ((splitSlash t.relative_path).dropLast)).dest
    (List.foldl (stepFolder prov) { st2 with current := rootPath }
      ((splitSlash t.relative_path).dropLast)).log hfull2
  have htf := createOpcTag_frame prov
    (List.foldl (stepFolder prov) { st2 with current := rootPath }
      ((splitSlash t.relative_path).dropLast)).current t.display_name
    (List.foldl (stepFolder prov) { st2 with current := rootPath }
      ((splitSlash t.relative_path).dropLast)).dest
    (List.foldl (stepFolder prov) { st2 with current := rootPath }
      ((splitSlash t.relative_path).dropLast)).log
  refine ⟨hsim.2.1, ?_, ?_, ?_⟩
  · rw [hti.1]
    exact hsim.2.2.1
  · rw [htf.1]
    exact hsim.2.2.2.1
  · rw [hti.2.1]
    exact hsim.2.2.2.2

lemma foldTags_mono (prov rootPath : String) :
    ∀ (ts : List TagInfo) (st : TState) (x : String), x ∈ st.dest →
    x ∈ (List.foldl (processOne prov rootPath) st ts).dest := by
  intro ts
  induction ts with
  | nil => intro st x hx; exact hx
  | cons t l ih =>
    intro st x hx
    simp only [List.foldl_cons]
    exact ih _ x (processOne_mono prov rootPath t st x hx)

lemma foldTags_count (prov rootPath : String) :
    ∀ (ts : List TagInfo) (st : TState),
    (List.foldl (processOne prov rootPath) st ts).tagsCreated =
      st.tagsCreated + ts.length := by
  intro ts
  induction ts with
  | nil => intro st; simp
  | cons t l ih =>
    intro st
    simp only [List.foldl_cons, List.length_cons]
    rw [ih, processOne_tagsCreated]
    omega

lemma foldTags_sim (prov rootPath : String) :
    ∀ (ts : List TagInfo) (st1 st2 : TState),
    st1.cache = st2.cache →
    (∀ x ∈ (List.foldl (processOne prov rootPath) st1 ts).dest,
      x ∈ st2.dest) →
    (List.foldl (processOne prov rootPath) st2 ts).dest = st2.dest ∧
    (List.foldl (processOne prov rootPath) st2 ts).log.folderCalls =
      st2.log.folderCalls ∧
    (List.foldl (processOne prov rootPath) st2 ts).log.tagCalls =
      st2.log.tagCalls := by
  intro ts
  induction ts with
  | nil => intro st1 st2 hk hd; exact ⟨rfl, rfl, rfl⟩
  | cons t l ih =>
    intro st1 st2 hk hd
    simp only [List.foldl_cons] at hd ⊢
    have hd1 : ∀ x ∈ (processOne prov rootPath st1 t).dest, x ∈ st2.dest :=
      fun x hx => hd x (foldTags_mono prov rootPath l _ x hx)
    have hstep := processOne_sim prov rootPath t st1 st2 hk hd1
    have hd2 : ∀ x ∈ (List.foldl (processOne prov rootPath)
        (processOne prov rootPath st1 t) l).dest,
        x ∈ (processOne prov rootPath st2 t).dest := by
      intro x hx
      rw [hstep.2.1]
      exact hd x hx
    have hrec := ih (processOne prov rootPath st1 t)
      (processOne prov rootPath st2 t) hstep.1.symm hd2
    exact ⟨hrec.1.trans hstep.2.1, hrec.2.1.trans hstep.2.2.1,
      hrec.2.2.trans hstep.2.2.2⟩

lemma secondRun_no_creates (found : List TagInfo) (prov root : String)
    (d : Dest) :
    (createTagsFromList found prov root
      (createTagsFromList found prov root d).dest).log.folderCalls = [] ∧
    (createTagsFromList found prov root
      (createTagsFromList found prov root d).dest).log.tagCalls = [] := by
  simp only [createTagsFromList]
  have hroot1 : provPath prov (joinPath "" root) ∈
      (List.foldl (processOne prov
        (createFolderStructure prov "" root d emptyLog).1)
        { current := (createFolderStructure prov "" root d emptyLog).1,
          cache := [],
          dest := (createFolderStructure prov "" root d emptyLog).2.1,
          log := (createFolderStructure prov "" root d emptyLog).2.2,
          foldersCreated := 1, tagsCreated := 0 } found).dest :=
    foldTags_mono prov _ found _ _
      (createFolderStructure_ensures prov "" root d emptyLog)
  have hB := createFolderStructure_idem prov "" root
    (List.foldl (processOne prov
      (createFolderStructure prov "" root d emptyLog).1)
      { current := (createFolderStructure prov "" root d emptyLog).1,
        cache := [],
        dest := (createFolderStructure prov "" root d emptyLog).2.1,
        log := (createFolderStructure prov "" root d emptyLog).2.2,
        foldersCreated := 1, tagsCreated := 0 } found).dest
    emptyLog hroot1
  have hp : (createFolderStructure prov "" root
      (List.foldl (processOne prov
        (createFolderStructure prov "" root d emptyLog).1)
        { current := (createFolderStructure prov "" root d emptyLog).1,
          cache := [],
          dest := (createFolderStructure prov "" root d emptyLog).2.1,
          log := (createFolderStructure prov "" root d emptyLog).2.2,
          foldersCreated := 1, tagsCreated := 0 } found).dest
      emptyLog).1 = (createFolderStructure prov "" root d emptyLog).1 := by
    rw [createFolderStructure_path, createFolderStructure_path]
  rw [hp]
  have hsim := foldTags_sim prov
    (createFolderStructure prov "" root d emptyLog).1 found
    { current := (createFolderStructure prov "" root d emptyLog).1,
      cache := [],
      dest := (createFolderStructure prov "" root d emptyLog).2.1,
      log := (createFolderStructure prov "" root d emptyLog).2.2,
      foldersCreated := 1, tagsCreated := 0 }
    { current := (createFolderStructure prov "" root d emptyLog).1,
      cache := [],
      dest := (createFolderStructure prov "" root
        (List.foldl (processOne prov
          (createFolderStructure prov "" root d emptyLog).1)
          { current := (createFolderStructure prov "" root d emptyLog).1,
            cache := [],
            dest := (createFolderStructure prov "" root d emptyLog).2.1,
            log := (createFolderStructure prov "" root d emptyLog).2.2,
            foldersCreated := 1, tagsCreated := 0 } found).dest
        emptyLog).2.1,
      log := (createFolderStructure prov "" root
        (List.foldl (processOne prov
          (createFolderStructure prov "" root d emptyLog).1)
          { current := (createFolderStructure prov "" root d emptyLog).1,
            cache := [],
            dest := (createFolderStructure prov "" root d emptyLog).2.1,
            log := (createFolderStructure prov "" root d emptyLog).2.2,
            foldersCreated := 1, tagsCreated := 0 } found).dest
        emptyLog).2.2,
      foldersCreated := 1, tagsCreated := 0 }
    rfl
    (by
      intro x hx
      show x ∈ (createFolderStructure prov "" root
        (List.foldl (processOne prov
          (createFolderStructure prov "" root d emptyLog).1)
          { current := (createFolderStructure prov "" root d emptyLog).1,
            cache := [],
            dest := (createFolderStructure prov "" root d emptyLog).2.1,
            log := (createFolderStructure prov "" root d emptyLog).2.2,
            foldersCreated := 1, tagsCreated := 0 } found).dest
        emptyLog).2.1
      rw [hB.1]
      exact hx)
  refine ⟨?_, ?_⟩
  · rw [hsim.2.1]
    exact hB.2.1
  · rw [hsim.2.2]
    exact hB.2.2

/-- C2 (idempotence): running create_tags_from_list a second time with
the same found-tags list and configuration against the destination
state left by the first run issues zero system.tag.configure calls,
for folders and for tags alike: every folder and leaf creation first
checks destination existence and is a no-op success when the target
already exists. -/
theorem claim_C2_idempotent_second_run :
    ∀ (found : List TagInfo) (prov root : String) (d : Dest),
    (createTagsFromList found prov root
      (createTagsFromList found prov root d).dest).log.folderCalls = [] ∧
    (createTagsFromList found prov root
      (createTagsFromList found prov root d).dest).log.tagCalls = [] :=
  fun found prov root d => secondRun_no_creates found prov root d

lemma createTagsFromList_tagsCreated (found : List TagInfo)
    (prov root : String) (d : Dest) :
    (createTagsFromList found prov root d).tagsCreated = found.length := by
  simp only [createTagsFromList]
  rw [foldTags_count]
  simp

/-- C10: the reported tags_created count includes leaves that already
existed: create_opc_tag returns True on an existence hit without
configuring, and create_tags_from_list counts every True return, so a
second run over the unchanged found-tags list reports tags_created
equal to the number of discovered leaves while issuing zero tag
configure calls. -/
theorem claim_C10_tags_created_counts_existing :
    ∀ (found : List TagInfo) (prov root : String) (d : Dest),
    (createTagsFromList found prov root
      (createTagsFromList found prov root d).dest).tagsCreated =
      found.length ∧
    ("tags_created", RVal.n found.length) ∈
      (createTagsFromList found prov root
        (createTagsFromList found prov root d).dest).result ∧
    (createTagsFromList found prov root
      (createTagsFromList found prov root d).dest).log.tagCalls = [] := by
  intro found prov root d
  refine ⟨createTagsFromList_tagsCreated found prov root _, ?_,
    (secondRun_no_creates found prov root d).2⟩
  have h := createTagsFromList_tagsCreated found prov root
    (createTagsFromList found prov root d).dest
  simp only [createTagsFromList] at h ⊢
  rw [h]
  simp

lemma append_ne_empty_left (a b : String) (h : a ≠ "") : a ++ b ≠ "" := by
  intro he
  apply h
  apply String.ext
  have := congrArg String.data he
  rw [String.data_append] at this
  exact (List.append_eq_nil.mp this).1

lemma append_ne_empty_right (a b : String) (h : b ≠ "") : a ++ b ≠ "" := by
  intro he
  apply h
  apply String.ext
  have := congrArg String.data he
  rw [String.data_append] at this
  exact (List.append_eq_nil.mp this).2

lemma endsWithSlash_append (a b : String) (hb : b ≠ "") :
    endsWithSlash (a ++ b) = endsWithSlash b := by
  unfold endsWithSlash
  rw [String.data_append, List.getLast?_append_of_ne_nil]
  intro hd
  exact hb (String.ext (hd.trans rfl))

lemma joinPath_eq (p n : String) (hp : p ≠ "")
    (hpe : endsWithSlash p = false) : joinPath p n = p ++ "/" ++ n := by
  unfold joinPath
  rw [if_pos hp, if_neg]
  rw [hpe]
  exact Bool.false_ne_true

lemma joinSlash_ne_empty : ∀ (segs : List String), segs ≠ [] →
    (∀ s ∈ segs, s ≠ "") → joinSlash segs ≠ "" := by
  intro segs
  match segs with
  | [] => intro h; exact absurd rfl h
  | [s] => intro _ hs; exact hs s (List.mem_singleton_self s)
  | s :: b :: m =>
    intro _ hs
    show s ++ "/" ++ joinSlash (b :: m) ≠ ""
    exact append_ne_empty_left _ _
      (append_ne_empty_left _ _ (hs s (List.mem_cons_self _ _)))

lemma foldl_joinPath_join :
    ∀ (segs : List String) (root : String), root ≠ "" →
    endsWithSlash root = false → segs ≠ [] →
    (∀ s ∈ segs, s ≠ "" ∧ endsWithSlash s = false) →
    List.foldl joinPath root segs = root ++ "/" ++ joinSlash segs := by
  intro segs
  induction segs with
  | nil => intro root _ _ h _; exact absurd rfl h
  | cons a l ih =>
    intro root hr hre _ hs
    have ha := hs a (List.mem_cons_self _ _)
    match l with
    | [] =>
      show joinPath root a = root ++ "/" ++ joinSlash [a]
      rw [joinPath_eq root a hr hre]
      rfl
    | b :: m =>
      have hr2 : root ++ "/" ++ a ≠ "" :=
        append_ne_empty_right _ _ ha.1
      have hre2 : endsWithSlash (root ++ "/" ++ a) = false := by
        rw [endsWithSlash_append _ a ha.1]
        exact ha.2
      show List.foldl joinPath (joinPath root a) (b :: m) =
        root ++ "/" ++ joinSlash (a :: b :: m)
      rw [joinPath_eq root a hr hre]
      rw [ih (root ++ "/" ++ a) hr2 hre2 (List.cons_ne_nil b m)
        (fun s hsm => hs s (List.mem_cons_of_mem _ hsm))]
      show root ++ "/" ++ a ++ "/" ++ joinSlash (b :: m) =
        root ++ "/" ++ (a ++ "/" ++ joinSlash (b :: m))
      simp [String.append_assoc]

lemma dropLast_of_len_le_one (l : List String) (h : l.length ≤ 1) :
    l.dropLast = [] := by
  match l with
  | [] => rfl
  | [a] => rfl
  | a :: b :: m => simp at h

lemma dryIgnitionPath_eq_live (prov root : String) (t : TagInfo)
    (hprov : prov ≠ "") (hr : root ≠ "")
    (hre : endsWithSlash root = false)
    (hsegs : ∀ s ∈ (splitSlash t.relative_path).dropLast,
      s ≠ "" ∧ endsWithSlash s = false) :
    dryIgnitionPath prov root t =
      tagFullPath prov
        (List.foldl joinPath root ((splitSlash t.relative_path).dropLast))
        t.display_name := by
  unfold dryIgnitionPath dryFolderPath
  by_cases hlen : 1 < (splitSlash t.relative_path).length
  · have hne : (splitSlash t.relative_path).dropLast ≠ [] := by
      intro hd
      have := congrArg List.length hd
      rw [List.length_dropLast] at this
      simp at this
      omega
    have hjs : joinSlash ((splitSlash t.relative_path).dropLast) ≠ "" :=
      joinSlash_ne_empty _ hne (fun s hsm => (hsegs s hsm).1)
    rw [if_pos hlen, if_pos hjs]
    rw [foldl_joinPath_join _ root hr hre hne hsegs]
    unfold tagFullPath
    rw [if_pos hprov, if_pos (append_ne_empty_left _ _
      (append_ne_empty_left _ _ hr))]
    simp [String.append_assoc]
  · rw [if_neg hlen]
    rw [if_neg (fun h => h rfl)]
    rw [dropLast_of_len_le_one _ (by omega)]
    unfold tagFullPath
    simp only [List.foldl_nil]
    rw [if_pos hprov, if_pos hr]

lemma mem_insertStr (y : String) :
    ∀ (l : List String) (x : String),
    x ∈ insertStr y l ↔ x = y ∨ x ∈ l := by
  intro l
  induction l with
  | nil => intro x; simp [insertStr]
  | cons a m ih =>
    intro x
    simp only [insertStr]
    split
    · simp [List.mem_cons]
    · simp only [List.mem_cons, ih]
      tauto

lemma mem_sortStr : ∀ (l : List String) (x : String),
    x ∈ sortStr l ↔ x ∈ l := by
  intro l
  induction l with
  | nil => intro x; rfl
  | cons a m ih =>
    intro x
    simp only [sortStr, mem_insertStr, ih, List.mem_cons]

lemma mem_keys_addGroup (k : String) (p : String) :
    ∀ (g : List (String × List String)) (y : String),
    y ∈ (addGroup g k p).map Prod.fst ↔ y ∈ g.map Prod.fst ∨ y = k := by
  intro g
  induction g with
  | nil => intro y; simp [addGroup]
  | cons e rest ih =>
    intro y
    obtain ⟨k0, ps⟩ := e
    simp only [addGroup]
    split
    · next he => simp [List.mem_cons, he]; tauto
    · simp only [List.map_cons, List.mem_cons, ih]
      tauto

lemma nodupKeys_addGroup (k : String) (p : String) :
    ∀ (g : List (String × List String)),
    (g.map Prod.fst).Nodup → ((addGroup g k p).map Prod.fst).Nodup := by
  intro g
  induction g with
  | nil => intro _; simp [addGroup]
  | cons e rest ih =>
    intro hnd
    obtain ⟨k0, ps⟩ := e
    simp only [List.map_cons, List.nodup_cons] at hnd
    simp only [addGroup]
    split
    · next he => simp only [List.map_cons, List.nodup_cons]; exact hnd
    · next he =>
      simp only [List.map_cons, List.nodup_cons]
      constructor
      · intro hy
        rcases (mem_keys_addGroup k p rest k0).mp hy with hy | hy
        · exact hnd.1 hy
        · exact he hy
      · exact ih hnd.2

lemma mem_entries_addGroup (k : String) (p : String) :
    ∀ (g : List (String × List String)) (x : String),
    x ∈ (addGroup g k p).flatMap Prod.snd ↔
      x = p ∨ x ∈ g.flatMap Prod.snd := by
  intro g
  induction g with
  | nil => intro x; simp [addGroup]
  | cons e rest ih =>
    intro x
    obtain ⟨k0, ps⟩ := e
    simp only [addGroup]
    split
    · simp only [List.flatMap_cons, List.mem_append, List.mem_singleton]
      tauto
    · simp only [List.flatMap_cons, List.mem_append, ih]
      tauto

lemma findGroup_entries :
    ∀ (g : List (String × List String)), (g.map Prod.fst).Nodup →
    ∀ (x : String),
    (∃ k ∈ g.map Prod.fst, x ∈ findGroup g k) ↔ x ∈ g.flatMap Prod.snd := by
  intro g
  induction g with
  | nil => intro _ x; simp
  | cons e rest ih =>
    intro hnd x
    obtain ⟨k0, ps⟩ := e
    simp only [List.map_cons, List.nodup_cons] at hnd
    simp only [List.map_cons, List.flatMap_cons, List.mem_append]
    constructor
    · rintro ⟨k, hk, hx⟩
      rcases List.mem_cons.mp hk with rfl | hk
      · left
        simpa [findGroup] using hx
      · right
        have hne : k0 ≠ k := fun he => hnd.1 (he ▸ hk)
        rw [show findGroup ((k0, ps) :: rest) k = findGroup rest k by
          simp [findGroup, hne]] at hx
        exact (ih hnd.2 x).mp ⟨k, hk, hx⟩
    · rintro (hx | hx)
      · exact ⟨k0, List.mem_cons_self _ _, by simpa [findGroup] using hx⟩
      · obtain ⟨k, hk, hx2⟩ := (ih hnd.2 x).mpr hx
        have hne : k0 ≠ k := fun he => hnd.1 (he ▸ hk)
        exact ⟨k, List.mem_cons_of_mem _ hk,
          by simp [findGroup, hne]; exact hx2⟩

lemma mem_entries_groupFold (root prov : String) :
    ∀ (ts : List TagInfo) (g : List (String × List String)) (x : String),
    x ∈ (List.foldl (fun g t =>
        addGroup g (dryFolderPath t) (dryIgnitionPath prov root t)) g
        ts).flatMap Prod.snd ↔
      x ∈ g.flatMap Prod.snd ∨ ∃ t ∈ ts, dryIgnitionPath prov root t = x := by
  intro ts
  induction ts with
  | nil => intro g x; simp
  | cons t l ih =>
    intro g x
    simp only [List.foldl_cons]
    rw [ih, mem_entries_addGroup]
    simp only [List.mem_cons]
    constructor
    · rintro ((rfl | h) | ⟨u, hu, he⟩)
      · exact Or.inr ⟨t, Or.inl rfl, rfl⟩
      · exact Or.inl h
      · exact Or.inr ⟨u, Or.inr hu, he⟩
    · rintro (h | ⟨u, rfl | hu, he⟩)
      · exact Or.inl (Or.inr h)
      · exact Or.inl (Or.inl he.symm)
      · exact Or.inr ⟨u, hu, he⟩

lemma nodupKeys_groupFold (root prov : String) :
    ∀ (ts : List TagInfo) (g : List (String × List String)),
    (g.map Prod.fst).Nodup →
    ((List.foldl (fun g t =>
        addGroup g (dryFolderPath t) (dryIgnitionPath prov root t)) g
        ts).map Prod.fst).Nodup := by
  intro ts
  induction ts with
  | nil => intro g h; exact h
  | cons t l ih =>
    intro g h
    simp only [List.foldl_cons]
    exact ih _ (nodupKeys_addGroup _ _ g h)

lemma mem_printTagPaths (found : List TagInfo) (root prov p : String) :
    p ∈ printTagPaths found root prov ↔
      ∃ t ∈ found, dryIgnitionPath prov root t = p := by
  unfold printTagPaths
  have hnd := nodupKeys_groupFold root prov found [] (by simp)
  rw [List.mem_flatMap]
  constructor
  · rintro ⟨k, hk, hp⟩
    rw [mem_sortStr] at hk
    have hx := (findGroup_entries _ hnd p).mp ⟨k, hk, hp⟩
    rw [mem_entries_groupFold] at hx
    simpa using hx
  · rintro ⟨t, ht, hp⟩
    have hx : p ∈ (List.foldl (fun g t =>
        addGroup g (dryFolderPath t) (dryIgnitionPath prov root t))
        ([] : List (String × List String)) found).flatMap Prod.snd :=
      (mem_entries_groupFold root prov found [] p).mpr
        (Or.inr ⟨t, ht, hp⟩)
    obtain ⟨k, hk, hp2⟩ := (findGroup_entries _ hnd p).mpr hx
    exact ⟨k, (mem_sortStr _ _).mpr hk, hp2⟩

lemma processOne_tagPaths (prov rootPath : String) (t : TagInfo)
    (st : TState) :
    (processOne prov rootPath st t).log.tagPaths =
      st.log.tagPaths ++ [tagFullPath prov
        (List.foldl joinPath rootPath
          ((splitSlash t.relative_path).dropLast)) t.display_name] := by
  simp only [processOne]
  rw [(createOpcTag_frame prov
    (List.foldl (stepFolder prov) { st with current := rootPath }
      ((splitSlash t.relative_path).dropLast)).current t.display_name
    (List.foldl (stepFolder prov) { st with current := rootPath }
      ((splitSlash t.relative_path).dropLast)).dest
    (List.foldl (stepFolder prov) { st with current := rootPath }
      ((splitSlash t.relative_path).dropLast)).log).2]
  rw [(foldFolders_tagFrame prov ((splitSlash t.relative_path).dropLast)
    { st with current := rootPath }).2]
  rw [foldFolders_current]

lemma foldTags_tagPaths (prov rootPath : String) :
    ∀ (ts : List TagInfo) (st : TState),
    (List.foldl (processOne prov rootPath) st ts).log.tagPaths =
      st.log.tagPaths ++ ts.map (fun t => tagFullPath prov
        (List.foldl joinPath rootPath
          ((splitSlash t.relative_path).dropLast)) t.display_name) := by
  intro ts
  induction ts with
  | nil => intro st; simp
  | cons t l ih =>
    intro st
    simp only [List.foldl_cons, List.map_cons]
    rw [ih, processOne_tagPaths]
    simp

lemma createTagsFromList_tagPaths (found : List TagInfo)
    (prov root : String) (d : Dest) :
    (createTagsFromList found prov root d).log.tagPaths =
      found.map (fun t => tagFullPath prov
        (List.foldl joinPath root
          ((splitSlash t.relative_path).dropLast)) t.display_name) := by
  simp only [createTagsFromList]
  rw [foldTags_tagPaths]
  dsimp only
  rw [(createFolderStructure_frame prov "" root d emptyLog).2]
  rw [createFolderStructure_path]
  rw [show joinPath "" root = root from rfl]
  rfl

/-- C6 (dry-run purity): with a well-formed configuration (nonempty
provider, nonempty root folder not ending in a slash) and discovered
relative paths whose folder segments are nonempty and slash-free, the
dry run issues zero destination-store calls and leaves the store
unchanged, computes the same discovered leaf set as the live run (both
modes call the same browse before branching), and the set of Ignition
paths it prints equals the set of full tag paths the live run
processes for creation. -/
theorem claim_C6_dry_run_purity :
    ∀ (c : Client) (base prov root : String) (sl : Option (List String))
    (maxIter : Nat) (d d2 : Dest) (bt tt2 bt2 tt3 : Nat),
    prov ≠ "" → root ≠ "" → endsWithSlash root = false →
    (∀ t ∈ (browseOpcIterative c base sl maxIter).found,
      ∀ s ∈ (splitSlash t.relative_path).dropLast,
        s ≠ "" ∧ endsWithSlash s = false) →
    (mainRun c base prov root sl maxIter true d bt tt2).log = emptyLog ∧
    (mainRun c base prov root sl maxIter true d bt tt2).dest = d ∧
    (mainRun c base prov root sl maxIter true d bt tt2).found =
      (mainRun c base prov root sl maxIter false d2 bt2 tt3).found ∧
    (∀ p,
      p ∈ (mainRun c base prov root sl maxIter true d bt tt2).dryPrinted ↔
      p ∈ (mainRun c base prov root sl maxIter false d2 bt2
        tt3).log.tagPaths) := by
  intro c base prov root sl maxIter d d2 bt tt2 bt2 tt3 hprov hroot hre hsegs
  by_cases hf : (browseOpcIterative c base sl maxIter).found = []
  · refine ⟨?_, ?_, ?_, ?_⟩ <;> simp [mainRun, hf, emptyLog]
  · refine ⟨?_, ?_, ?_, ?_⟩
    · simp [mainRun, hf]
    · simp [mainRun, hf]
    · simp [mainRun, hf]
    · intro p
      simp only [mainRun]
      rw [if_neg hf, if_neg hf]
      simp only [reduceIte, Bool.false_eq_true, if_false]
      rw [mem_printTagPaths, createTagsFromList_tagPaths, List.mem_map]
      constructor
      · rintro ⟨t, ht, he⟩
        refine ⟨t, ht, ?_⟩
        rw [← dryIgnitionPath_eq_live prov root t hprov hroot hre
          (hsegs t ht)]
        exact he
      · rintro ⟨t, ht, he⟩
        refine ⟨t, ht, ?_⟩
        rw [dryIgnitionPath_eq_live prov root t hprov hroot hre
          (hsegs t ht)]
        exact he

/-- Witness for C6: on the concrete namespace of cvClient with filter
CV, provider default and root Target, the dry run issues no
destination call and the printed path [default]Target/A/CV is exactly
the tag path the live run processes. -/
theorem claim_C6_witness :
    (mainRun cvClient "B" "default" "Target" (some ["CV"]) 10 true []
      0 0).log = emptyLog ∧
    ("[default]Target/A/CV" ∈ (mainRun cvClient "B" "default" "Target"
      (some ["CV"]) 10 true [] 0 0).dryPrinted ↔
     "[default]Target/A/CV" ∈ (mainRun cvClient "B" "default" "Target"
      (some ["CV"]) 10 false [] 0 0).log.tagPaths) := by
  have h := claim_C6_dry_run_purity cvClient "B" "default" "Target"
    (some ["CV"]) 10 [] [] 0 0 0 0 (by decide) (by decide) (by decide)
    (by decide)
  exact ⟨h.1, h.2.2.2 "[default]Target/A/CV"⟩

